import Mathlib

/-!
Shallow embedding of `PGLoader.py` (a GitHub folder downloader) and proofs
about its components: the reference parser (`parse_github_folder_url`), the
resilient fetcher (`download_with_progress`), the archive filter and
`SubpathNotFound` check, the staged materializer
(`extract_to_temp_and_move`), and the orchestrator
(`download_github_folder`).

Strings are manipulated with the same character-level semantics as the
Python source (`rstrip`, `strip`, `split`, slicing, `startswith`).
Filesystem state is modelled explicitly; network and per-member I/O are
modelled as oracles so that every control path of the source is represented.
-/

/-! ## Reference Parser (`parse_github_folder_url`, PGLoader.py lines 14-42) -/

/-- Python `len(s)` (character count). -/
def strLen (s : String) : Nat :=
  s.data.length

/-- Python `s[n:]` (character slice). -/
def strDrop (s : String) (n : Nat) : String :=
  ⟨s.data.drop n⟩

/-- Python `s.startswith(pre)` (character-level). -/
def strStartsWith (s pre : String) : Bool :=
  pre.data.isPrefixOf s.data

/-- Python `s.split("/")` on a character list: splitting on every `'/'`,
keeping empty pieces, `[""]` for the empty string. -/
def splitSlashChars : List Char → List String
  | [] => [""]
  | c :: rest =>
    let r := splitSlashChars rest
    if c == '/' then "" :: r
    else
      match r with
      | [] => [⟨[c]⟩]
      | s :: tail => ⟨c :: s.data⟩ :: tail

/-- Python `"/".join(parts)`. -/
def joinSlash : List String → String
  | [] => ""
  | [s] => s
  | s :: rest => s ++ "/" ++ joinSlash rest

/-- Python `url.rstrip("/")`: drop trailing `'/'` characters. -/
def rstripSlash (s : String) : String :=
  ⟨(s.data.reverse.dropWhile (fun c => c == '/')).reverse⟩

/-- Python `\w` character class for `str` arguments restricted to ASCII,
as used by the validation regex: letters, digits, underscore. -/
def wordChar (c : Char) : Bool :=
  c.isAlphanum || c == '_'

/-- Character class `[\w-]` (owner segment of the validation regex). -/
def ownerChar (c : Char) : Bool :=
  wordChar c || c == '-'

/-- Character class `[\w.-]` (repo segment of the validation regex). -/
def repoChar (c : Char) : Bool :=
  wordChar c || c == '.' || c == '-'

/-- Python `re.match(r"https?://github\.com/[\w-]+/[\w.-]+", url)` viewed as
a boolean: the URL must start with the scheme-and-host literal, then a
non-empty run of owner characters, a `'/'`, and at least one repo
character.  (`/` is not an owner character, so greedy matching with
backtracking is equivalent to taking the maximal owner run.) -/
def validGithubUrl (url : String) : Bool :=
  let rest : Option (List Char) :=
    if strStartsWith url "https://github.com/" then some (url.data.drop 19)
    else if strStartsWith url "http://github.com/" then some (url.data.drop 18)
    else none
  match rest with
  | none => false
  | some cs =>
    let own := cs.takeWhile ownerChar
    let after := cs.dropWhile ownerChar
    !own.isEmpty &&
      (match after with
       | '/' :: c :: _ => repoChar c
       | _ => false)

/-- The path component produced by `urlparse(url).path` for URLs of the
shape `scheme://host/...` without query or fragment: everything from the
first `'/'` after the scheme prefix. -/
def pathOf (url : String) : String :=
  let after :=
    if strStartsWith url "https://" then strDrop url 8
    else if strStartsWith url "http://" then strDrop url 7
    else url
  ⟨after.data.dropWhile (fun c => !(c == '/'))⟩

/-- Python `s.strip("/")`: drop leading and trailing `'/'` characters. -/
def stripSlashes (s : String) : String :=
  ⟨((s.data.dropWhile (fun c => c == '/')).reverse.dropWhile
      (fun c => c == '/')).reverse⟩

/-- Python `s.split("/")`. -/
def splitSlash (s : String) : List String :=
  splitSlashChars s.data

/-- `path_parts` of PGLoader.py line 25: `parsed_url.path.strip("/").split("/")`. -/
def pathParts (url : String) : List String :=
  splitSlash (stripSlashes (pathOf url))

/-- The segment-level logic of `parse_github_folder_url` (lines 27-42):
fewer than two segments is an error; a third segment equal to `tree` or
`blob` selects the fourth segment as branch (default `main`) and the
slash-join of the remaining segments as folder path. -/
def parseParts : List String → Except String (String × String × String × String)
  | owner :: repo :: rest =>
    match rest with
    | [] => Except.ok (owner, repo, "main", "")
    | kw :: rest2 =>
      if kw == "tree" || kw == "blob" then
        Except.ok (owner, repo, rest2.headD "main", joinSlash (rest2.drop 1))
      else
        Except.ok (owner, repo, "main", "")
  | _ => Except.error "URL does not point to a GitHub repository"

/-- `parse_github_folder_url` (PGLoader.py lines 14-42): strip trailing
slashes, validate against the GitHub regex, then decode the path segments. -/
def parse_github_folder_url (url : String) :
    Except String (String × String × String × String) :=
  let u := rstripSlash url
  if validGithubUrl u then parseParts (pathParts u)
  else Except.error "Invalid GitHub URL"

/-! ## Resilient Fetcher (`download_with_progress`, PGLoader.py lines 44-86) -/

/-- The in-memory buffer returned by the fetcher: the bytes written to the
`BytesIO` object and the stream position after `content.seek(0)`. -/
structure Buffer where
  content : List Nat
  pos : Nat
deriving DecidableEq

/-- The body of the download loop's success case: each non-empty chunk of
the response is appended to the buffer (`if chunk: content.write(chunk)`),
then the buffer is rewound (`content.seek(0)`). -/
def bufferOf (chunks : List (List Nat)) : Buffer :=
  ⟨chunks.foldl (fun acc c => if c = [] then acc else acc ++ c) [], 0⟩

/-- The retry loop of `download_with_progress`.  `out k` is the outcome of
attempt number `k` (`none` = network-class failure, `some chunks` = the
streamed response chunks); `rem` is the number of loop iterations still
allowed (`retries + 1 - k`).  On failure with budget left the loop records
a sleep of `backoff ^ (k+1)` seconds and retries; otherwise the failure
propagates.  The second component is the list of sleep durations. -/
def dlLoop (out : Nat → Option (List (List Nat))) (backoff : ℚ) :
    Nat → Nat → Except Unit Buffer × List ℚ
  | _, 0 => (Except.error (), [])
  | k, rem + 1 =>
    match out k with
    | some chunks => (Except.ok (bufferOf chunks), [])
    | none =>
      if rem = 0 then (Except.error (), [])
      else
        let p := dlLoop out backoff (k + 1) rem
        (p.1, backoff ^ (k + 1) :: p.2)

/-- `download_with_progress` (lines 44-86) over an attempt oracle: run the
retry loop starting at attempt 0 with `retries + 1` permitted iterations. -/
def download_with_progress (out : Nat → Option (List (List Nat)))
    (retries : Nat) (backoff : ℚ) : Except Unit Buffer × List ℚ :=
  dlLoop out backoff 0 (retries + 1)

/-! ## Archive Filter (`download_github_folder`, PGLoader.py lines 189-200) -/

/-- The folder prefix of lines 190-191:
`repo_dir_prefix + folder_path + "/" if folder_path else repo_dir_prefix`
where `repo_dir_prefix = f"{repo}-{branch}/"`. -/
def folderPfx (repo branch folder : String) : String :=
  let repoDir := repo ++ "-" ++ branch ++ "/"
  if folder == "" then repoDir else repoDir ++ folder ++ "/"

/-- The member selection of lines 194-197: members whose path starts with
the prefix and is not exactly the prefix, in archive order. -/
def targetFiles (names : List String) (pfx : String) : List String :=
  names.filter (fun f => strStartsWith f pfx && f != pfx)

/-- The `SubpathNotFound` check of lines 199-200: raise when the selection
is empty, otherwise hand the selection on. -/
def subpathSelection (names : List String) (pfx : String) :
    Except String (List String) :=
  let tf := targetFiles names pfx
  if tf.isEmpty then Except.error "Folder not found in repository"
  else Except.ok tf

/-! ## Path sanitization and write-path resolution
(`sanitize_path`, PGLoader.py lines 88-92, and the effect of
`os.path.join(temp_dir, rel_path)` followed by the OS resolving the path
at `open(2)` time) -/

/-- `sanitize_path` (lines 88-92): Python `path.rstrip('/\\')`. -/
def sanitize_path (p : String) : String :=
  ⟨(p.data.reverse.dropWhile (fun c => c == '/' || c == '\\')).reverse⟩

/-- Lexical path resolution as performed by the operating system when the
joined path is opened: `".."` pops the last accumulated segment, `"."` and
empty segments are skipped, other segments are appended. -/
def resolveSegs (acc : List String) : List String → List String
  | [] => acc
  | s :: rest =>
    if s == ".." then resolveSegs acc.dropLast rest
    else if s == "." || s == "" then resolveSegs acc rest
    else resolveSegs (acc ++ [s]) rest

/-- `os.path.join(base, rel)` followed by OS resolution: a relative path
starting with `'/'` discards the base (Python join semantics); otherwise
the relative segments are resolved against the base segments. -/
def osJoinResolve (base : List String) (rel : String) : List String :=
  if strStartsWith rel "/" then resolveSegs [] (splitSlash rel)
  else resolveSegs base (splitSlash rel)

/-- Whether `path` lies inside the directory `base` (inclusive). -/
def isUnder (base path : List String) : Bool :=
  base.isPrefixOf path

/-- The write path used for one archive member (lines 107-115): drop the
folder prefix, sanitize, then join onto the staging root. -/
def stagedWritePath (tempDir : List String) (pfx : String) (file : String) :
    List String :=
  osJoinResolve tempDir (sanitize_path (strDrop file (strLen pfx)))

/-! ## Filesystem model for the Staged Materializer
(`extract_to_temp_and_move`, PGLoader.py lines 94-157)

A directory tree is represented flat: a list of file entries
(segment path relative to the tree root, byte content) and a list of
directory entries created by `os.makedirs`. -/

/-- One directory tree, flattened. -/
structure FsState where
  files : List (List String × List Nat)
  dirs : List (List String)
deriving DecidableEq

/-- The empty tree. -/
def emptyFs : FsState := ⟨[], []⟩

/-- The filesystem around one materializer run: the destination directory
(and whether it exists yet) and the staging directory (ditto). -/
structure WorldFS where
  destExists : Bool
  dest : FsState
  tempExists : Bool
  temp : FsState
deriving DecidableEq

/-- Key of a file entry: the first segment of its path. -/
def fkey (p : List String × List Nat) : Option String := p.1.head?

/-- Key of a directory entry: the first segment of its path. -/
def dkey (q : List String) : Option String := q.head?

/-- Entries of `l` whose key is `n`. -/
def kfilter {α : Type} (key : α → Option String) (n : String) (l : List α) :
    List α :=
  l.filter (fun a => key a == some n)

/-- Entries of `l` whose key is not `n`. -/
def kremove {α : Type} (key : α → Option String) (n : String) (l : List α) :
    List α :=
  l.filter (fun a => !(key a == some n))

/-- `os.makedirs(..., exist_ok=True)` for one directory path: record the
directory and every non-empty ancestor. -/
def mkdirsAll (st : FsState) (dirSegs : List String) : FsState :=
  ⟨st.files, st.dirs ++ (dirSegs.inits.filter (fun q => !q.isEmpty))⟩

/-- `open(target_file_path, "wb")` + `write`: create or overwrite the file
at `segs`. -/
def insertFileAt (files : List (List String × List Nat)) (segs : List String)
    (bytes : List Nat) : List (List String × List Nat) :=
  files.filter (fun p => !(p.1 == segs)) ++ [(segs, bytes)]

/-- One iteration of the extraction loop (lines 104-123): compute the
prefix-relative path, skip it when empty, sanitize it, create the parent
directories, then write the member bytes — or, when the member's
extraction fails (`extractO file = none`), log and skip, leaving the
already-created directories behind. -/
def extractStep (pfx : String) (extractO : String → Option (List Nat))
    (st : FsState) (file : String) : FsState :=
  let rel := strDrop file (strLen pfx)
  if rel == "" then st
  else
    let rel2 := sanitize_path rel
    let segs := splitSlash rel2
    let st2 := mkdirsAll st segs.dropLast
    match extractO file with
    | some bytes => ⟨insertFileAt st2.files segs bytes, st2.dirs⟩
    | none => st2

/-- The staging tree produced by the whole extraction loop. -/
def stagedOf (members : List String) (pfx : String)
    (extractO : String → Option (List Nat)) : FsState :=
  members.foldl (extractStep pfx extractO) emptyFs

/-- `os.listdir(temp_dir)`: the distinct top-level names of a tree. -/
def topNames (st : FsState) : List String :=
  (st.dirs.filterMap dkey ++ st.files.filterMap fkey).dedup

/-- `os.path.exists(dst_path)` for top-level name `n` of the destination. -/
def existsTop (d : FsState) (n : String) : Bool :=
  d.files.any (fun p => fkey p == some n) || d.dirs.any (fun q => dkey q == some n)

/-- `os.path.isdir(dst_path)` for top-level name `n`: a directory entry or
a file strictly below `n`. -/
def isdirTop (d : FsState) (n : String) : Bool :=
  d.dirs.any (fun q => dkey q == some n)
    || d.files.any (fun p => fkey p == some n && !(p.1 == [n]))

/-- `shutil.rmtree(dst_path, ignore_errors=True)`: remove everything under
top-level name `n`. -/
def removeTop (d : FsState) (n : String) : FsState :=
  ⟨kremove fkey n d.files, kremove dkey n d.dirs⟩

/-- `os.unlink(dst_path)`: remove the file whose path is exactly `[n]`. -/
def removeFile (d : FsState) (n : String) : FsState :=
  ⟨d.files.filter (fun p => !(p.1 == [n])), d.dirs⟩

/-- `shutil.move(src_path, dst_path)`: transplant the staged entries under
top-level name `n` into the destination. -/
def transplant (staged d : FsState) (n : String) : FsState :=
  ⟨d.files ++ kfilter fkey n staged.files,
   d.dirs ++ kfilter dkey n staged.dirs⟩

/-- The `try: shutil.move(...) except` of lines 146-149: a move failure
(`moveOk n = false`) is caught, logged and skipped, leaving the
destination as it stood after the removal step. -/
def moveFin (staged : FsState) (moveOk : String → Bool) (d1 : FsState)
    (n : String) : Except Unit FsState :=
  if moveOk n then Except.ok (transplant staged d1 n) else Except.ok d1

/-- One iteration of the move loop (lines 134-149): if a same-named entry
exists at the destination it is removed first — recursively and
error-ignoring for a directory, via `os.unlink` (whose failure, modelled by
`unlinkOk n = false`, is uncaught and aborts the batch) for a file — and
then the staged item is moved in. -/
def moveItem (staged : FsState) (unlinkOk moveOk : String → Bool)
    (d : FsState) (n : String) : Except Unit FsState :=
  if existsTop d n then
    if isdirTop d n then moveFin staged moveOk (removeTop d n) n
    else if unlinkOk n then moveFin staged moveOk (removeFile d n) n
    else Except.error ()
  else moveFin staged moveOk d n

/-- The move loop over the top-level staged items.  An uncaught exception
stops the loop, returning the destination as mutated so far. -/
def moveLoop (staged : FsState) (unlinkOk moveOk : String → Bool) :
    List String → FsState → Except Unit Unit × FsState
  | [], d => (Except.ok (), d)
  | n :: rest, d =>
    match moveItem staged unlinkOk moveOk d n with
    | Except.error _ => (Except.error (), d)
    | Except.ok d1 => moveLoop staged unlinkOk moveOk rest d1

/-- `extract_to_temp_and_move` (lines 94-157): create the staging
directory, run the extraction loop into it, create the destination
directory if absent, run the move loop, and — in the `finally` block, on
success and failure alike — recursively remove the staging directory with
errors ignored. -/
def extract_to_temp_and_move (members : List String) (pfx : String)
    (extractO : String → Option (List Nat)) (unlinkOk moveOk : String → Bool)
    (w : WorldFS) : Except Unit Unit × WorldFS :=
  let staged := stagedOf members pfx extractO
  let r := moveLoop staged unlinkOk moveOk (topNames staged) w.dest
  (r.1, { destExists := true, dest := r.2, tempExists := false, temp := emptyFs })

/-! ## Orchestrator (`download_github_folder`, PGLoader.py lines 159-210) -/

/-- The primary archive URL of line 175. -/
def codeloadUrl (owner repo branch : String) : String :=
  "https://codeload.github.com/" ++ owner ++ "/" ++ repo
    ++ "/zip/refs/heads/" ++ branch

/-- The fallback archive URL of line 184. -/
def fallbackUrl (owner repo branch : String) : String :=
  "https://github.com/" ++ owner ++ "/" ++ repo ++ "/archive/"
    ++ branch ++ ".zip"

/-- The pipeline stage after a successful fetch (lines 187-206): filter the
archive members, fail on an empty selection, otherwise materialize; the
outer `except` of `download_github_folder` maps any escaped exception to a
`False` return.  The third component is the trace of fetcher invocations
`(url, retry budget)`. -/
def afterFetch (names : List String) (pfx : String)
    (extractO : String → Option (List Nat)) (unlinkOk moveOk : String → Bool)
    (w : WorldFS) (trace : List (String × Nat)) :
    Bool × WorldFS × List (String × Nat) :=
  match subpathSelection names pfx with
  | Except.error _ => (false, w, trace)
  | Except.ok tf =>
    match extract_to_temp_and_move tf pfx extractO unlinkOk moveOk w with
    | (Except.ok _, w1) => (true, w1, trace)
    | (Except.error _, w1) => (false, w1, trace)

/-- `download_github_folder` (lines 159-210) over a fetch oracle
(`url → retry budget → archive member list on success`).  Both fetcher
invocations use the default retry budget 3 of `download_with_progress`;
a failure of the primary URL triggers exactly one invocation with the
fallback URL; a failure of both leaves the filesystem untouched and
reports `False`. -/
def download_github_folder (url : String)
    (fetch : String → Nat → Option (List String))
    (extractO : String → Option (List Nat)) (unlinkOk moveOk : String → Bool)
    (w : WorldFS) : Bool × WorldFS × List (String × Nat) :=
  match parse_github_folder_url url with
  | Except.error _ => (false, w, [])
  | Except.ok (owner, repo, branch, folder) =>
    let u1 := codeloadUrl owner repo branch
    match fetch u1 3 with
    | some names =>
      afterFetch names (folderPfx repo branch folder) extractO unlinkOk moveOk
        w [(u1, 3)]
    | none =>
      let u2 := fallbackUrl owner repo branch
      match fetch u2 3 with
      | some names =>
        afterFetch names (folderPfx repo branch folder) extractO unlinkOk moveOk
          w [(u1, 3), (u2, 3)]
      | none => (false, w, [(u1, 3), (u2, 3)])

/-! ## Helper lemmas -/

theorem foldl_write_eq_join (chunks : List (List Nat)) :
    ∀ acc : List Nat,
      chunks.foldl (fun a c => if c = [] then a else a ++ c) acc
        = acc ++ chunks.flatten := by
  induction chunks with
  | nil => intro acc; simp
  | cons c cs ih =>
    intro acc
    by_cases h : c = [] <;> simp [h, ih, List.append_assoc]

theorem bufferOf_eq_join (chunks : List (List Nat)) :
    bufferOf chunks = ⟨chunks.flatten, 0⟩ := by
  simp [bufferOf, foldl_write_eq_join]

theorem isPrefixOf_append_self (base l : List String) :
    base.isPrefixOf (base ++ l) = true := by
  simp

theorem resolveSegs_no_dotdot (segs : List String) :
    ∀ acc : List String, (∀ s ∈ segs, s ≠ "..") →
      resolveSegs acc segs
        = acc ++ segs.filter (fun s => !(s == ".") && !(s == "")) := by
  induction segs with
  | nil => intro acc _; simp [resolveSegs]
  | cons s rest ih =>
    intro acc h
    have hs : ¬(s == "..") = true := by
      simpa using h s (by simp)
    have hrest : ∀ x ∈ rest, x ≠ ".." := fun x hx => h x (by simp [hx])
    rw [resolveSegs, if_neg hs]
    by_cases hdot : (s == "." || s == "") = true
    · have hdot' : s = "." ∨ s = "" := by simpa using hdot
      rw [if_pos hdot, ih acc hrest]
      congr 1
      rcases hdot' with h' | h' <;> simp [List.filter_cons, h']
    · rw [if_neg hdot, ih (acc ++ [s]) hrest]
      simp only [Bool.or_eq_true, beq_iff_eq, not_or] at hdot
      obtain ⟨h1, h2⟩ := hdot
      simp [List.filter_cons, h1, h2, List.append_assoc]

/-! ## C1: path sanitization and the staging-tree boundary -/

/-- C1 counterexample: `sanitize_path` only strips trailing separators, so
the archive member `widgets-v2/../../evil.txt` — which the Archive Filter
would select for the whole-repo prefix `widgets-v2/` — produces a write
path outside the staging directory. -/
theorem traversal_escape_cex :
    sanitize_path (strDrop "widgets-v2/../../evil.txt" (strLen "widgets-v2/"))
      = "../../evil.txt"
    ∧ isUnder ["home", "temp_extract_1"]
        (stagedWritePath ["home", "temp_extract_1"] "widgets-v2/"
          "widgets-v2/../../evil.txt") = false
    ∧ "widgets-v2/../../evil.txt"
        ∈ targetFiles ["widgets-v2/../../evil.txt"] (folderPfx "widgets" "v2" "") := by
  exact ⟨by decide, by decide, by decide⟩

/-- C1 (amended): the sanitization removes trailing separators only; the
resulting write path is guaranteed to lie inside the staging directory
only for members whose prefix-relative sanitized path is not
absolute-rooted and contains no `..` segment. -/
theorem sanitized_write_path_spec (tempDir : List String) (pfx file : String)
    (habs : strStartsWith (sanitize_path (strDrop file (strLen pfx))) "/" = false)
    (hdot : ∀ s ∈ splitSlash (sanitize_path (strDrop file (strLen pfx))), s ≠ "..") :
    isUnder tempDir (stagedWritePath tempDir pfx file) = true := by
  unfold stagedWritePath osJoinResolve
  rw [habs]
  simp only [Bool.false_eq_true, if_false]
  rw [resolveSegs_no_dotdot _ tempDir hdot]
  simp [isUnder]

/-- C1 witness: a well-behaved member lands inside the staging directory. -/
theorem sanitized_write_path_witness :
    isUnder ["home", "t"]
      (stagedWritePath ["home", "t"] "r-main/" "r-main/src/a.txt") = true :=
  sanitized_write_path_spec ["home", "t"] "r-main/" "r-main/src/a.txt"
    (by decide) (by decide)

/-! ## C4: the archive filter selection -/

/-- C4: the selection is exactly the member paths that start with the
prefix `"{repo}-{branch}/{folder}/"` (or `"{repo}-{branch}/"` for an empty
folder) and are not exactly equal to it, and it is a sublist of the
archive's member list, i.e. kept in insertion order. -/
theorem archive_filter_selection_spec (names : List String)
    (repo branch folder : String) :
    (folder = "" → folderPfx repo branch folder = repo ++ "-" ++ branch ++ "/")
    ∧ (folder ≠ "" →
        folderPfx repo branch folder
          = repo ++ "-" ++ branch ++ "/" ++ folder ++ "/")
    ∧ (∀ f, f ∈ targetFiles names (folderPfx repo branch folder)
        ↔ f ∈ names
          ∧ strStartsWith f (folderPfx repo branch folder) = true
          ∧ f ≠ folderPfx repo branch folder)
    ∧ List.Sublist (targetFiles names (folderPfx repo branch folder)) names := by
  refine ⟨?_, ?_, ?_, List.filter_sublist names⟩
  · intro h; simp [folderPfx, h]
  · intro h; simp [folderPfx, h]
  · intro f
    simp [targetFiles, List.mem_filter, and_assoc]

/-- C4 witness: a concrete archive and coordinates. -/
theorem archive_filter_selection_witness :
    folderPfx "widgets" "v2" "src" = "widgets-v2/src/"
    ∧ "widgets-v2/src/a.txt"
        ∈ targetFiles ["widgets-v2/", "widgets-v2/src/", "widgets-v2/src/a.txt"]
            (folderPfx "widgets" "v2" "src") := by
  have h := archive_filter_selection_spec
    ["widgets-v2/", "widgets-v2/src/", "widgets-v2/src/a.txt"] "widgets" "v2" "src"
  exact ⟨h.2.1 (by decide),
    (h.2.2.1 "widgets-v2/src/a.txt").2 ⟨by simp, by decide, by decide⟩⟩

/-! ## C5: the SubpathNotFound check -/

/-- C5: the selection stage fails exactly when the selection is empty, and
any archive containing a member strictly under the prefix passes. -/
theorem subpath_not_found_spec (names : List String) (pfx : String) :
    (subpathSelection names pfx = Except.error "Folder not found in repository"
      ↔ targetFiles names pfx = [])
    ∧ (∀ f, f ∈ names → strStartsWith f pfx = true → f ≠ pfx →
        subpathSelection names pfx = Except.ok (targetFiles names pfx)) := by
  constructor
  · unfold subpathSelection
    by_cases h : (targetFiles names pfx).isEmpty
    · simp [h, List.isEmpty_iff.mp h]
    · simp only [h, if_neg]
      simp [List.isEmpty_iff] at h
      simp [h]
  · intro f hmem hsw hne
    have hf : f ∈ targetFiles names pfx := by
      simp [targetFiles, List.mem_filter, hmem, hsw, hne]
    have : ¬(targetFiles names pfx).isEmpty := by
      simp [List.isEmpty_iff]
      exact List.ne_nil_of_mem hf
    simp [subpathSelection, this]

/-- C5 witness: a member under the prefix suppresses the error. -/
theorem subpath_not_found_witness :
    subpathSelection ["r-main/", "r-main/a.txt"] "r-main/"
      = Except.ok ["r-main/a.txt"] := by
  have h := (subpath_not_found_spec ["r-main/", "r-main/a.txt"] "r-main/").2
    "r-main/a.txt" (by simp) (by decide) (by decide)
  rw [h]
  rfl

/-! ## C7: staging-directory cleanup on every exit path -/

/-- C7: whatever the oracles do — the move loop succeeding or aborting with
an uncaught exception — the world returned by the materializer has no
staging directory, and the body's outcome is passed through unchanged by
the cleanup. -/
theorem staging_cleanup_spec (members : List String) (pfx : String)
    (extractO : String → Option (List Nat)) (unlinkOk moveOk : String → Bool)
    (w : WorldFS) :
    (extract_to_temp_and_move members pfx extractO unlinkOk moveOk w).2.tempExists
      = false
    ∧ (extract_to_temp_and_move members pfx extractO unlinkOk moveOk w).1
        = (moveLoop (stagedOf members pfx extractO) unlinkOk moveOk
            (topNames (stagedOf members pfx extractO)) w.dest).1 := by
  exact ⟨rfl, rfl⟩

/-! ## C3: the fetcher retry loop -/

theorem map_pow_shift (backoff : ℚ) (k n : Nat) :
    (List.range (n + 1)).map (fun i => backoff ^ (k + i + 1))
      = backoff ^ (k + 1)
        :: (List.range n).map (fun i => backoff ^ (k + 1 + i + 1)) := by
  rw [List.range_succ_eq_map, List.map_cons, List.map_map]
  refine congrArg₂ List.cons (by norm_num) ?_
  apply List.map_congr_left
  intro a _
  simp only [Function.comp]
  congr 1
  omega

theorem dlLoop_some (out : Nat → Option (List (List Nat))) (backoff : ℚ)
    (k rem : Nat) (chunks : List (List Nat)) (h : out k = some chunks) :
    dlLoop out backoff k (rem + 1) = (Except.ok (bufferOf chunks), []) := by
  rw [dlLoop.eq_def]
  simp [h]

theorem dlLoop_none_zero (out : Nat → Option (List (List Nat))) (backoff : ℚ)
    (k : Nat) (h : out k = none) :
    dlLoop out backoff k 1 = (Except.error (), []) := by
  rw [dlLoop.eq_def]
  simp [h]

theorem dlLoop_none_succ (out : Nat → Option (List (List Nat))) (backoff : ℚ)
    (k r : Nat) (h : out k = none) :
    dlLoop out backoff k (r + 1 + 1)
      = ((dlLoop out backoff (k + 1) (r + 1)).1,
         backoff ^ (k + 1) :: (dlLoop out backoff (k + 1) (r + 1)).2) := by
  rw [dlLoop.eq_def]
  simp [h]

theorem dlLoop_success (out : Nat → Option (List (List Nat))) (backoff : ℚ)
    (chunks : List (List Nat)) :
    ∀ (N k rem : Nat), (∀ i, k ≤ i → i < k + N → out i = none) →
      out (k + N) = some chunks → N < rem →
      dlLoop out backoff k rem
        = (Except.ok (bufferOf chunks),
           (List.range N).map (fun i => backoff ^ (k + i + 1))) := by
  intro N
  induction N with
  | zero =>
    intro k rem hf hs hlt
    match rem, hlt with
    | rem + 1, _ =>
      rw [show k + 0 = k from rfl] at hs
      rw [dlLoop_some out backoff k rem chunks hs]
      simp
  | succ n ih =>
    intro k rem hf hs hlt
    match rem, hlt with
    | r + 1, hlt =>
      have hk : out k = none := hf k le_rfl (by omega)
      have hr : 0 < r := by omega
      match r, hr with
      | r' + 1, _ =>
        have ihh := ih (k + 1) (r' + 1) (fun i h1 h2 => hf i (by omega) (by omega))
          (by rw [show k + 1 + n = k + (n + 1) by omega]; exact hs) (by omega)
        rw [dlLoop_none_succ out backoff k r' hk, ihh]
        rw [map_pow_shift]

theorem dlLoop_allfail (out : Nat → Option (List (List Nat))) (backoff : ℚ) :
    ∀ (rem k : Nat), (∀ i, k ≤ i → i < k + rem → out i = none) →
      (dlLoop out backoff k rem).1 = Except.error () := by
  intro rem
  induction rem with
  | zero => intro k _; rfl
  | succ r ih =>
    intro k hf
    have hk : out k = none := hf k le_rfl (by omega)
    cases r with
    | zero => rw [dlLoop_none_zero out backoff k hk]
    | succ r' =>
      rw [dlLoop_none_succ out backoff k r' hk]
      exact ih (k + 1) (fun i h1 h2 => hf i (by omega) (by omega))

/-- C3: if the first `N` attempts fail with a network-class failure and
attempt `N + 1` succeeds, `N ≤ retries`, the fetcher returns the fully
buffered payload positioned at its start and the sleeps between
consecutive attempts are `backoff ^ 1, …, backoff ^ N`; if every attempt
up to the retry budget fails, the failure propagates instead of a value
being returned. -/
theorem fetcher_retry_spec (out : Nat → Option (List (List Nat)))
    (retries N : Nat) (backoff : ℚ) (chunks : List (List Nat)) :
    ((∀ i, i < N → out i = none) → out N = some chunks → N ≤ retries →
      download_with_progress out retries backoff
        = (Except.ok ⟨chunks.flatten, 0⟩,
           (List.range N).map (fun i => backoff ^ (i + 1))))
    ∧ ((∀ i, i ≤ retries → out i = none) →
      (download_with_progress out retries backoff).1 = Except.error ()) := by
  constructor
  · intro hf hs hle
    have h := dlLoop_success out backoff chunks N 0 (retries + 1)
      (fun i _ h2 => hf i (by omega)) (by simpa using hs) (by omega)
    rw [download_with_progress, h, bufferOf_eq_join]
    simp
  · intro hf
    exact dlLoop_allfail out backoff (retries + 1) 0 (fun i _ h2 => hf i (by omega))

/-- C3 witness: two failures then success with retry budget 3 and
backoff 2; and total failure with every attempt failing. -/
theorem fetcher_retry_witness :
    download_with_progress (fun i => if i < 2 then none else some [[1], [], [2, 3]]) 3 2
      = (Except.ok ⟨[1, 2, 3], 0⟩, [2, 4])
    ∧ (download_with_progress (fun _ => none) 3 2).1 = Except.error () := by
  constructor
  · have h := (fetcher_retry_spec
      (fun i => if i < 2 then none else some [[1], [], [2, 3]]) 3 2 2 [[1], [], [2, 3]]).1
      (fun i hi => by simp [hi]) (by norm_num) (by norm_num)
    rw [h]
    norm_num [List.range_succ]
  · exact (fetcher_retry_spec (fun _ => none) 3 0 2 []).2 (fun i _ => rfl)

/-! ## C6 and C10: the reference parser -/

theorem rstripSlash_append_slash (s : String) :
    rstripSlash (s ++ "/") = rstripSlash s := by
  unfold rstripSlash
  rw [String.data_append]
  congr 1
  simp [List.dropWhile]

theorem parse_append_slash (url : String) :
    parse_github_folder_url (url ++ "/") = parse_github_folder_url url := by
  unfold parse_github_folder_url
  rw [rstripSlash_append_slash]


theorem parseParts_branch_folder (parts : List String) (o r b f : String)
    (h : parseParts parts = Except.ok (o, r, b, f)) :
    (∀ kw rev, parts[2]? = some kw → (kw = "tree" ∨ kw = "blob") →
      parts[3]? = some rev → b = rev ∧ f = joinSlash (parts.drop 4))
    ∧ (∀ kw, parts[2]? = some kw → kw ≠ "tree" → kw ≠ "blob" →
        b = "main" ∧ f = "")
    ∧ (parts[2]? = none → b = "main" ∧ f = "") := by
  match parts with
  | [] => simp [parseParts] at h
  | [a] => simp [parseParts] at h
  | [a, c] =>
    simp only [parseParts, Except.ok.injEq, Prod.mk.injEq] at h
    obtain ⟨-, -, hb, hf⟩ := h
    refine ⟨?_, ?_, ?_⟩
    · intro kw rev h2 _ _
      simp at h2
    · intro kw h2 _ _
      simp at h2
    · intro _
      exact ⟨hb.symm, hf.symm⟩
  | a :: c :: kw' :: rest2 =>
    by_cases hkw : (kw' == "tree" || kw' == "blob") = true
    · have hp : parseParts (a :: c :: kw' :: rest2)
          = Except.ok (a, c, rest2.headD "main", joinSlash (rest2.drop 1)) := by
        simp [parseParts, hkw]
      rw [hp] at h
      simp only [Except.ok.injEq, Prod.mk.injEq] at h
      obtain ⟨-, -, hb, hf⟩ := h
      refine ⟨?_, ?_, ?_⟩
      · intro kw rev h2 hkey h3
        match rest2 with
        | [] => simp at h3
        | rev' :: rest3 =>
          simp only [List.getElem?_cons_succ, List.getElem?_cons_zero,
            Option.some.injEq] at h3
          subst h3
          exact ⟨by simpa using hb.symm, by simpa using hf.symm⟩
      · intro kw h2 hne1 hne2
        have hk : kw' = kw := by simpa using h2
        subst hk
        have hkw2 : kw' = "tree" ∨ kw' = "blob" := by simpa using hkw
        rcases hkw2 with h' | h' <;> simp_all
      · intro h2
        simp at h2
    · have hp : parseParts (a :: c :: kw' :: rest2)
          = Except.ok (a, c, "main", "") := by
        simp only [parseParts]
        rw [if_neg hkw]
      rw [hp] at h
      simp only [Except.ok.injEq, Prod.mk.injEq] at h
      obtain ⟨-, -, hb, hf⟩ := h
      refine ⟨?_, ?_, ?_⟩
      · intro kw rev h2 hkey h3
        have hk : kw' = kw := by simpa using h2
        subst hk
        rcases hkey with h' | h' <;> simp_all
      · intro kw h2 hne1 hne2
        exact ⟨hb.symm, hf.symm⟩
      · intro h2
        simp at h2

/-- C6: for every accepted locator, the parser's branch and folder are
determined by the path segments of the trailing-separator-stripped
locator: a `tree`/`blob` third segment makes the fourth segment the
revision and the slash-join of the remaining segments the subpath; any
other third segment (or none) yields revision `main` and empty subpath;
and a trailing slash never changes the parse. -/
theorem parser_segments_spec (url owner repo branch folder : String)
    (h : parse_github_folder_url url
      = Except.ok (owner, repo, branch, folder)) :
    (∀ kw rev, (pathParts (rstripSlash url))[2]? = some kw →
        (kw = "tree" ∨ kw = "blob") →
        (pathParts (rstripSlash url))[3]? = some rev →
        branch = rev
          ∧ folder = joinSlash ((pathParts (rstripSlash url)).drop 4))
    ∧ (∀ kw, (pathParts (rstripSlash url))[2]? = some kw →
        kw ≠ "tree" → kw ≠ "blob" → branch = "main" ∧ folder = "")
    ∧ ((pathParts (rstripSlash url))[2]? = none →
        branch = "main" ∧ folder = "")
    ∧ parse_github_folder_url (url ++ "/") = parse_github_folder_url url := by
  simp only [parse_github_folder_url] at h
  by_cases hv : validGithubUrl (rstripSlash url) = true
  case neg =>
    rw [if_neg hv] at h
    simp at h
  rw [if_pos hv] at h
  have hcore := parseParts_branch_folder (pathParts (rstripSlash url))
    owner repo branch folder h
  exact ⟨hcore.1, hcore.2.1, hcore.2.2, parse_append_slash url⟩

/-- C6 witness: the locator
`https://github.com/a/b/tree/dev/src/x` parses to owner `a`, repo `b`,
revision `dev`, subpath `src/x`, matching the segment rule, and a
trailing slash is insignificant. -/
theorem parser_segments_witness :
    (("dev" : String) = "dev"
      ∧ ("src/x" : String)
          = joinSlash ((pathParts
              (rstripSlash "https://github.com/a/b/tree/dev/src/x")).drop 4))
    ∧ parse_github_folder_url ("https://github.com/a/b/tree/dev/src/x" ++ "/")
        = parse_github_folder_url "https://github.com/a/b/tree/dev/src/x" := by
  have h := parser_segments_spec "https://github.com/a/b/tree/dev/src/x"
    "a" "b" "dev" "src/x" rfl
  exact ⟨h.1 "tree" "dev" (by decide) (Or.inl rfl) (by decide), h.2.2.2⟩

/-! ## C10: a ref-selector segment with no revision segment -/

/-- C10: a locator whose path is exactly `owner/repo/tree` (or `blob`) is
accepted: the parser returns revision `main` and an empty subpath, the
same as if the ref-selector segment were absent. -/
theorem tree_without_revision_spec (url o r kw : String)
    (hv : validGithubUrl (rstripSlash url) = true)
    (hp : pathParts (rstripSlash url) = [o, r, kw])
    (hkw : (kw == "tree" || kw == "blob") = true) :
    parse_github_folder_url url = Except.ok (o, r, "main", "")
    ∧ parseParts [o, r, kw] = parseParts [o, r] := by
  constructor
  · simp only [parse_github_folder_url]
    rw [if_pos hv, hp]
    simp [parseParts, hkw, joinSlash]
  · simp [parseParts, hkw, joinSlash]

/-- C10 witness: `https://github.com/a/b/tree` parses without failure. -/
theorem tree_without_revision_witness :
    parse_github_folder_url "https://github.com/a/b/tree"
      = Except.ok ("a", "b", "main", "") :=
  (tree_without_revision_spec "https://github.com/a/b/tree" "a" "b" "tree"
    (by decide) (by decide) (by decide)).1

/-! ## C2: primary fetch failure, single fallback, failure without mutation -/

theorem afterFetch_trace (names : List String) (pfx : String)
    (extractO : String → Option (List Nat)) (unlinkOk moveOk : String → Bool)
    (w : WorldFS) (trace : List (String × Nat)) :
    (afterFetch names pfx extractO unlinkOk moveOk w trace).2.2 = trace := by
  unfold afterFetch
  rcases hsel : subpathSelection names pfx with e | tf
  · rfl
  · show (match extract_to_temp_and_move tf pfx extractO unlinkOk moveOk w with
        | (Except.ok _, w1) => (true, w1, trace)
        | (Except.error _, w1) => (false, w1, trace)).2.2 = trace
    rcases h : extract_to_temp_and_move tf pfx extractO unlinkOk moveOk w with
      ⟨r, w1⟩
    cases r <;> rfl

/-- C2: when the primary (codeload) URL fails, the orchestrator performs
exactly one further fetch, on the fallback URL built from the same
coordinates and with the same retry budget (the fetcher default, 3); if
that also fails, the run reports failure and the filesystem is returned
unchanged. -/
theorem fallback_fetch_spec (url o r b f : String)
    (fetch : String → Nat → Option (List String))
    (extractO : String → Option (List Nat)) (unlinkOk moveOk : String → Bool)
    (w : WorldFS)
    (hp : parse_github_folder_url url = Except.ok (o, r, b, f))
    (h1 : fetch (codeloadUrl o r b) 3 = none) :
    (download_github_folder url fetch extractO unlinkOk moveOk w).2.2
      = [(codeloadUrl o r b, 3), (fallbackUrl o r b, 3)]
    ∧ (fetch (fallbackUrl o r b) 3 = none →
       download_github_folder url fetch extractO unlinkOk moveOk w
         = (false, w, [(codeloadUrl o r b, 3), (fallbackUrl o r b, 3)])) := by
  unfold download_github_folder
  rw [hp]
  simp only [h1]
  cases h2 : fetch (fallbackUrl o r b) 3 with
  | none => simp [h2]
  | some names =>
    constructor
    · exact afterFetch_trace names (folderPfx r b f) extractO unlinkOk moveOk w _
    · intro hcontra
      cases hcontra

/-- C2 witness: both URLs failing on a concrete locator. -/
theorem fallback_fetch_witness :
    download_github_folder "https://github.com/a/b" (fun _ _ => none)
      (fun _ => none) (fun _ => true) (fun _ => true)
      ⟨false, emptyFs, false, emptyFs⟩
      = (false, ⟨false, emptyFs, false, emptyFs⟩,
         [(codeloadUrl "a" "b" "main", 3), (fallbackUrl "a" "b" "main", 3)]) :=
  (fallback_fetch_spec "https://github.com/a/b" "a" "b" "main" ""
    (fun _ _ => none) (fun _ => none) (fun _ => true) (fun _ => true)
    ⟨false, emptyFs, false, emptyFs⟩ rfl rfl).2 rfl

/-! ## C8: merge semantics of the move phase -/

theorem kfilter_append {α : Type} (key : α → Option String) (n : String)
    (l1 l2 : List α) :
    kfilter key n (l1 ++ l2) = kfilter key n l1 ++ kfilter key n l2 := by
  unfold kfilter
  rw [List.filter_append]

theorem kfilter_kremove_self {α : Type} (key : α → Option String) (n : String)
    (l : List α) : kfilter key n (kremove key n l) = [] := by
  unfold kfilter kremove
  rw [List.filter_filter]
  simp

theorem kfilter_kremove_ne {α : Type} (key : α → Option String) (m n : String)
    (h : m ≠ n) (l : List α) :
    kfilter key m (kremove key n l) = kfilter key m l := by
  unfold kfilter kremove
  rw [List.filter_filter]
  apply List.filter_congr
  intro a _
  by_cases hk : key a = some m
  · simp [hk, h]
  · have hb : (key a == some m) = false := by simpa using hk
    simp [hb]

theorem kfilter_kfilter_self {α : Type} (key : α → Option String) (n : String)
    (l : List α) : kfilter key n (kfilter key n l) = kfilter key n l := by
  unfold kfilter
  rw [List.filter_filter]
  apply List.filter_congr
  intro a _
  simp [Bool.and_self]

theorem kfilter_kfilter_ne {α : Type} (key : α → Option String) (m n : String)
    (h : m ≠ n) (l : List α) : kfilter key m (kfilter key n l) = [] := by
  unfold kfilter
  rw [List.filter_filter]
  rw [List.filter_eq_nil_iff]
  intro a _
  by_cases hk : key a = some m
  · simp [hk, h]
  · have hb : (key a == some m) = false := by simpa using hk
    simp [hb]

theorem kfilter_filter_of_key {α : Type} (key : α → Option String)
    (g : α → Bool) (n : String) (l : List α)
    (h : ∀ a, key a = some n → g a = true) :
    kfilter key n (l.filter g) = kfilter key n l := by
  unfold kfilter
  rw [List.filter_filter]
  apply List.filter_congr
  intro a _
  by_cases hk : key a = some n
  · simp [hk, h a hk]
  · have hb : (key a == some n) = false := by simpa using hk
    simp [hb]

theorem kremove_of_not_any {α : Type} (key : α → Option String) (n : String)
    (l : List α) (h : l.any (fun a => key a == some n) = false) :
    kremove key n l = l := by
  unfold kremove
  rw [List.filter_eq_self]
  intro a ha
  have h2 := List.any_eq_false.mp h a ha
  simpa using h2

theorem transplant_filter_ne (staged d : FsState) (a n : String) (h : n ≠ a) :
    kfilter fkey n (transplant staged d a).files = kfilter fkey n d.files
    ∧ kfilter dkey n (transplant staged d a).dirs = kfilter dkey n d.dirs := by
  unfold transplant
  constructor <;>
    simp [kfilter_append, kfilter_kfilter_ne _ n a h]

theorem transplant_filter_self (staged d : FsState) (a : String) :
    kfilter fkey a (transplant staged (removeTop d a) a).files
      = kfilter fkey a staged.files
    ∧ kfilter dkey a (transplant staged (removeTop d a) a).dirs
      = kfilter dkey a staged.dirs := by
  unfold transplant removeTop
  constructor <;>
    simp [kfilter_append, kfilter_kremove_self, kfilter_kfilter_self]

theorem removeFile_filter_ne (d : FsState) (a n : String) (h : n ≠ a) :
    kfilter fkey n (removeFile d a).files = kfilter fkey n d.files
    ∧ kfilter dkey n (removeFile d a).dirs = kfilter dkey n d.dirs := by
  unfold removeFile
  refine ⟨?_, rfl⟩
  apply kfilter_filter_of_key
  intro p hp
  have hne : p.1 ≠ [a] := by
    intro hcontra
    unfold fkey at hp
    rw [hcontra] at hp
    simp at hp
    exact h hp.symm
  simp [hne]

theorem moveItem_ne_filter (staged : FsState) (unlinkOk moveOk : String → Bool)
    (d d1 : FsState) (a n : String) (h : n ≠ a)
    (hmi : moveItem staged unlinkOk moveOk d a = Except.ok d1) :
    kfilter fkey n d1.files = kfilter fkey n d.files
    ∧ kfilter dkey n d1.dirs = kfilter dkey n d.dirs := by
  unfold moveItem at hmi
  have hfin : ∀ d2 : FsState,
      moveFin staged moveOk d2 a = Except.ok d1 →
      kfilter fkey n d2.files = kfilter fkey n d.files →
      kfilter dkey n d2.dirs = kfilter dkey n d.dirs →
      kfilter fkey n d1.files = kfilter fkey n d.files
        ∧ kfilter dkey n d1.dirs = kfilter dkey n d.dirs := by
    intro d2 hf hfiles hdirs
    unfold moveFin at hf
    by_cases hmk : moveOk a = true
    · rw [if_pos hmk] at hf
      obtain rfl : transplant staged d2 a = d1 := by
        simpa using hf
      obtain ⟨t1, t2⟩ := transplant_filter_ne staged d2 a n h
      exact ⟨t1.trans hfiles, t2.trans hdirs⟩
    · rw [if_neg hmk] at hf
      obtain rfl : d2 = d1 := by simpa using hf
      exact ⟨hfiles, hdirs⟩
  by_cases he : existsTop d a = true
  · rw [if_pos he] at hmi
    by_cases hd : isdirTop d a = true
    · rw [if_pos hd] at hmi
      obtain ⟨r1, r2⟩ : kfilter fkey n (removeTop d a).files
            = kfilter fkey n d.files
          ∧ kfilter dkey n (removeTop d a).dirs = kfilter dkey n d.dirs := by
        unfold removeTop
        exact ⟨kfilter_kremove_ne fkey n a h _, kfilter_kremove_ne dkey n a h _⟩
      exact hfin _ hmi r1 r2
    · rw [if_neg hd] at hmi
      by_cases hu : unlinkOk a = true
      · rw [if_pos hu] at hmi
        obtain ⟨r1, r2⟩ := removeFile_filter_ne d a n h
        exact hfin _ hmi r1 r2
      · rw [if_neg hu] at hmi
        cases hmi
  · rw [if_neg he] at hmi
    exact hfin d hmi rfl rfl

theorem moveLoop_cons_ok (staged : FsState) (unlinkOk moveOk : String → Bool)
    (n : String) (rest : List String) (d d1 : FsState)
    (h : moveItem staged unlinkOk moveOk d n = Except.ok d1) :
    moveLoop staged unlinkOk moveOk (n :: rest) d
      = moveLoop staged unlinkOk moveOk rest d1 := by
  rw [moveLoop.eq_def]
  simp [h]

theorem moveLoop_cons_err (staged : FsState) (unlinkOk moveOk : String → Bool)
    (n : String) (rest : List String) (d : FsState)
    (h : moveItem staged unlinkOk moveOk d n = Except.error ()) :
    moveLoop staged unlinkOk moveOk (n :: rest) d = (Except.error (), d) := by
  rw [moveLoop.eq_def]
  simp [h]

theorem moveLoop_filter_of_not_mem (staged : FsState)
    (unlinkOk moveOk : String → Bool) :
    ∀ (items : List String) (d : FsState) (n : String), n ∉ items →
      kfilter fkey n (moveLoop staged unlinkOk moveOk items d).2.files
        = kfilter fkey n d.files
      ∧ kfilter dkey n (moveLoop staged unlinkOk moveOk items d).2.dirs
        = kfilter dkey n d.dirs := by
  intro items
  induction items with
  | nil => intro d n _; exact ⟨rfl, rfl⟩
  | cons a rest ih =>
    intro d n hn
    have hna : n ≠ a := by
      intro hcontra
      exact hn (by simp [hcontra])
    have hnr : n ∉ rest := fun hcontra => hn (by simp [hcontra])
    rcases hmi : moveItem staged unlinkOk moveOk d a with e | d1
    · cases e
      rw [moveLoop_cons_err staged unlinkOk moveOk a rest d hmi]
      exact ⟨rfl, rfl⟩
    · rw [moveLoop_cons_ok staged unlinkOk moveOk a rest d d1 hmi]
      obtain ⟨s1, s2⟩ :=
        moveItem_ne_filter staged unlinkOk moveOk d d1 a n hna hmi
      obtain ⟨r1, r2⟩ := ih d1 n hnr
      exact ⟨r1.trans s1, r2.trans s2⟩

theorem moveItem_all_ok (staged : FsState) (unlinkOk moveOk : String → Bool)
    (d : FsState) (a : String) (hu : unlinkOk a = true) (hm : moveOk a = true) :
    moveItem staged unlinkOk moveOk d a
      = Except.ok (transplant staged (removeTop d a) a) := by
  unfold moveItem moveFin
  by_cases he : existsTop d a = true
  · rw [if_pos he]
    by_cases hd : isdirTop d a = true
    · rw [if_pos hd, if_pos hm]
    · rw [if_neg hd, if_pos hu, if_pos hm]
      have hfile : (removeFile d a) = removeTop d a := by
        unfold existsTop at he
        unfold isdirTop at hd
        rw [Bool.not_eq_true, Bool.or_eq_false_iff] at hd
        obtain ⟨hd1, hd2⟩ := hd
        unfold removeFile removeTop
        have hdirs : kremove dkey a d.dirs = d.dirs :=
          kremove_of_not_any dkey a d.dirs hd1
        rw [hdirs]
        have hfiles : d.files.filter (fun p => !(p.1 == [a]))
            = kremove fkey a d.files := by
          unfold kremove
          apply List.filter_congr
          intro p hp
          have h2 := List.any_eq_false.mp hd2 p hp
          by_cases hk : fkey p = some a
          · have hb : (fkey p == some a) = true := by simp [hk]
            have hpn : (p.1 == [a]) = true := by
              cases hq : (p.1 == [a]) with
              | true => rfl
              | false => exact absurd (by simp [hb, hq]) h2
            simp [hpn, hb]
          · have hb : (fkey p == some a) = false := by simpa using hk
            have hpn : (p.1 == [a]) = false := by
              cases hq : (p.1 == [a]) with
              | false => rfl
              | true =>
                have hp1 : p.1 = [a] := by simpa using hq
                exact absurd (by simp [fkey, hp1]) hk
            simp [hpn, hb]
        rw [hfiles]
      rw [hfile]
  · rw [if_neg he, if_pos hm]
    have hremove : removeTop d a = d := by
      unfold existsTop at he
      rw [Bool.not_eq_true, Bool.or_eq_false_iff] at he
      obtain ⟨he1, he2⟩ := he
      unfold removeTop
      rw [kremove_of_not_any fkey a d.files he1,
          kremove_of_not_any dkey a d.dirs he2]
    rw [hremove]

theorem moveLoop_filter_of_mem (staged : FsState)
    (unlinkOk moveOk : String → Bool)
    (hu : ∀ x, unlinkOk x = true) (hm : ∀ x, moveOk x = true) :
    ∀ (items : List String) (d : FsState) (n : String),
      items.Nodup → n ∈ items →
      kfilter fkey n (moveLoop staged unlinkOk moveOk items d).2.files
        = kfilter fkey n staged.files
      ∧ kfilter dkey n (moveLoop staged unlinkOk moveOk items d).2.dirs
        = kfilter dkey n staged.dirs := by
  intro items
  induction items with
  | nil => intro d n _ hmem; simp at hmem
  | cons a rest ih =>
    intro d n hnd hmem
    have hMI := moveItem_all_ok staged unlinkOk moveOk d a (hu a) (hm a)
    rw [moveLoop_cons_ok staged unlinkOk moveOk a rest d _ hMI]
    rcases List.mem_cons.mp hmem with rfl | hmemr
    · have hnr : n ∉ rest := (List.nodup_cons.mp hnd).1
      obtain ⟨r1, r2⟩ := moveLoop_filter_of_not_mem staged unlinkOk moveOk rest
        (transplant staged (removeTop d n) n) n hnr
      obtain ⟨t1, t2⟩ := transplant_filter_self staged d n
      exact ⟨r1.trans t1, r2.trans t2⟩
    · exact ih _ n (List.nodup_cons.mp hnd).2 hmemr

/-- C8: when no per-item failure occurs, every top-level staged name ends
up in the destination with exactly the staged entries under that name
(conflicting pre-existing entries removed and replaced); and — for any
oracle behaviour whatsoever — a destination name that conflicts with no
staged entry keeps exactly its original entries: unrelated siblings are
never deleted. -/
theorem materializer_merge_spec (members : List String) (pfx : String)
    (extractO : String → Option (List Nat)) (unlinkOk moveOk : String → Bool)
    (w : WorldFS) :
    ((∀ x, unlinkOk x = true) → (∀ x, moveOk x = true) →
      ∀ n ∈ topNames (stagedOf members pfx extractO),
        kfilter fkey n (extract_to_temp_and_move members pfx extractO unlinkOk
            moveOk w).2.dest.files
          = kfilter fkey n (stagedOf members pfx extractO).files
        ∧ kfilter dkey n (extract_to_temp_and_move members pfx extractO unlinkOk
            moveOk w).2.dest.dirs
          = kfilter dkey n (stagedOf members pfx extractO).dirs)
    ∧ (∀ n, n ∉ topNames (stagedOf members pfx extractO) →
        kfilter fkey n (extract_to_temp_and_move members pfx extractO unlinkOk
            moveOk w).2.dest.files
          = kfilter fkey n w.dest.files
        ∧ kfilter dkey n (extract_to_temp_and_move members pfx extractO unlinkOk
            moveOk w).2.dest.dirs
          = kfilter dkey n w.dest.dirs) := by
  constructor
  · intro hu hm n hn
    exact moveLoop_filter_of_mem (stagedOf members pfx extractO) unlinkOk moveOk
      hu hm (topNames (stagedOf members pfx extractO)) w.dest n
      (List.nodup_dedup _) hn
  · intro n hn
    exact moveLoop_filter_of_not_mem (stagedOf members pfx extractO) unlinkOk
      moveOk (topNames (stagedOf members pfx extractO)) w.dest n hn

/-- C8 witness: one staged file under `x` replaces a pre-existing `x`
entry, while the unrelated sibling `keep` is untouched. -/
theorem materializer_merge_witness :
    kfilter fkey "x" ((extract_to_temp_and_move ["p/x/a.txt"] "p/"
        (fun _ => some [7]) (fun _ => true) (fun _ => true)
        ⟨true, ⟨[(["keep"], [9]), (["x", "old"], [1])], []⟩, false,
          emptyFs⟩).2).dest.files
      = [(["x", "a.txt"], [7])]
    ∧ kfilter fkey "keep" ((extract_to_temp_and_move ["p/x/a.txt"] "p/"
        (fun _ => some [7]) (fun _ => true) (fun _ => true)
        ⟨true, ⟨[(["keep"], [9]), (["x", "old"], [1])], []⟩, false,
          emptyFs⟩).2).dest.files
      = [(["keep"], [9])] := by
  have h := materializer_merge_spec ["p/x/a.txt"] "p/" (fun _ => some [7])
    (fun _ => true) (fun _ => true)
    ⟨true, ⟨[(["keep"], [9]), (["x", "old"], [1])], []⟩, false, emptyFs⟩
  constructor
  · have h1 := (h.1 (fun _ => rfl) (fun _ => rfl) "x" (by decide)).1
    rw [h1]
    decide
  · have h2 := (h.2 "keep" (by decide)).1
    rw [h2]
    decide

/-! ## C9: per-member failure tolerance and the meaning of success -/

/-- C9 counterexample: with an archive containing `r-main/a.txt` (a
non-empty selection) but every member extraction failing, the run still
reports success while the destination contains none of the filtered
subtree. -/
theorem partial_success_cex :
    (download_github_folder "https://github.com/o/r"
        (fun _ _ => some ["r-main/", "r-main/a.txt"]) (fun _ => none)
        (fun _ => true) (fun _ => true)
        ⟨false, emptyFs, false, emptyFs⟩).1 = true
    ∧ (download_github_folder "https://github.com/o/r"
        (fun _ _ => some ["r-main/", "r-main/a.txt"]) (fun _ => none)
        (fun _ => true) (fun _ => true)
        ⟨false, emptyFs, false, emptyFs⟩).2.1.dest.files = []
    ∧ targetFiles ["r-main/", "r-main/a.txt"] (folderPfx "r" "main" "")
        = ["r-main/a.txt"] := by
  exact ⟨rfl, rfl, by decide⟩

theorem existsTop_of_isdirTop (d : FsState) (n : String)
    (h : isdirTop d n = true) : existsTop d n = true := by
  unfold existsTop isdirTop at *
  simp only [Bool.or_eq_true] at h ⊢
  rcases h with h1 | h2
  · exact Or.inr h1
  · obtain ⟨p, hp, hcond⟩ := List.any_eq_true.mp h2
    exact Or.inl (List.any_eq_true.mpr ⟨p, hp, (Bool.and_eq_true_iff.mp hcond).1⟩)

/-- C9 (amended): a member whose extraction fails contributes no file and
the loop goes on with the remaining members; a directory item whose move
fails is skipped (after the removal of the conflicting destination entry)
and the loop goes on; and the run reports success exactly when the move
phase finishes without an uncaught error — independently of how many
member extractions were skipped, so success does not imply the destination
contains the whole filtered subtree. -/
theorem per_member_tolerance_spec :
    (∀ (pfx : String) (extractO : String → Option (List Nat)) (st : FsState)
        (f : String), extractO f = none →
      (extractStep pfx extractO st f).files = st.files)
    ∧ (∀ (staged d : FsState) (unlinkOk moveOk : String → Bool) (n : String)
        (rest : List String), moveOk n = false → isdirTop d n = true →
      moveLoop staged unlinkOk moveOk (n :: rest) d
        = moveLoop staged unlinkOk moveOk rest (removeTop d n))
    ∧ (∀ (members : List String) (pfx : String)
        (extractO : String → Option (List Nat))
        (unlinkOk moveOk : String → Bool) (w : WorldFS),
      (moveLoop (stagedOf members pfx extractO) unlinkOk moveOk
          (topNames (stagedOf members pfx extractO)) w.dest).1 = Except.ok () →
      (extract_to_temp_and_move members pfx extractO unlinkOk moveOk w).1
        = Except.ok ()) := by
  refine ⟨?_, ?_, ?_⟩
  · intro pfx extractO st f h
    simp only [extractStep, h]
    split
    · rfl
    · rfl
  · intro staged d unlinkOk moveOk n rest hm hd
    have he := existsTop_of_isdirTop d n hd
    have hmi : moveItem staged unlinkOk moveOk d n
        = Except.ok (removeTop d n) := by
      unfold moveItem moveFin
      rw [if_pos he, if_pos hd, hm]
      simp
    rw [moveLoop_cons_ok staged unlinkOk moveOk n rest d _ hmi]
  · intro members pfx extractO unlinkOk moveOk w hml
    exact hml

/-- C9 witness: a failing extraction adds no file, a failing directory
move is skipped after removal, and a run whose only member fails to
extract still ends in success. -/
theorem per_member_tolerance_witness :
    (extractStep "p/" (fun _ => none) emptyFs "p/a.txt").files = emptyFs.files
    ∧ moveLoop emptyFs (fun _ => true) (fun _ => false) ["x"]
        ⟨[(["x", "f"], [1])], []⟩
        = moveLoop emptyFs (fun _ => true) (fun _ => false) []
            (removeTop ⟨[(["x", "f"], [1])], []⟩ "x")
    ∧ (extract_to_temp_and_move ["p/a.txt"] "p/" (fun _ => none)
        (fun _ => true) (fun _ => true)
        ⟨false, emptyFs, false, emptyFs⟩).1 = Except.ok () :=
  ⟨per_member_tolerance_spec.1 "p/" (fun _ => none) emptyFs "p/a.txt" rfl,
   per_member_tolerance_spec.2.1 emptyFs ⟨[(["x", "f"], [1])], []⟩
     (fun _ => true) (fun _ => false) "x" [] rfl (by decide),
   per_member_tolerance_spec.2.2 ["p/a.txt"] "p/" (fun _ => none)
     (fun _ => true) (fun _ => true) ⟨false, emptyFs, false, emptyFs⟩
     rfl⟩
